import Mathlib

/-!
Verification of the `mozi` reverse-proxy relay (src/deno_index.ts).

The development shallowly embeds the proxy's request pipeline:
* `apiMapping` — the static route table, in declaration order;
* `extractPrefixAndRest` — the router (path-prefix matching with a
  segment-boundary check);
* `filterHeaders` — the header allow-list filter, with the separate
  unconditional User-Agent copy step;
* `addSecurityHeaders` — the three defensive response headers set on relay;
* `handleRequest` — the top-level dispatcher; the network `fetch` is an
  oracle parameter, and the list of outbound target URLs actually fetched
  is returned alongside the response.

Header collections are modelled as ordered lists of (name, value) pairs
with case-insensitive lookup and `Headers.set` semantics (case-insensitive
replace-or-append, storing the name as given, as the source comments intend).
Strings are compared and sliced through their character lists, matching
JavaScript `startsWith`/`slice` on the ASCII data involved.
-/

namespace Mozi

/-- JS `s.startsWith(p)` : the characters of `p` are a prefix of those of `s`. -/
def strStartsWith (s p : String) : Bool :=
  p.data.isPrefixOf s.data

/-- JS `s.slice(n)` : drop the first `n` characters of `s`. -/
def strDrop (s : String) (n : Nat) : String :=
  ⟨s.data.drop n⟩

/-- The static route table `apiMapping`, in source declaration order. -/
def apiMapping : List (String × String) :=
  [("/mistral", "https://api.mistral.ai"),
   ("/discord", "https://discord.com/api"),
   ("/telegram", "https://api.telegram.org"),
   ("/openai", "https://api.openai.com"),
   ("/claude", "https://api.anthropic.com"),
   ("/gemini", "https://generativelanguage.googleapis.com"),
   ("/meta", "https://www.meta.ai/api"),
   ("/groq", "https://api.groq.com/openai"),
   ("/xai", "https://api.x.ai"),
   ("/cohere", "https://api.cohere.ai"),
   ("/huggingface", "https://api-inference.huggingface.co"),
   ("/together", "https://api.together.xyz"),
   ("/novita", "https://api.novita.ai"),
   ("/portkey", "https://api.portkey.ai"),
   ("/fireworks", "https://api.fireworks.ai"),
   ("/openrouter", "https://openrouter.ai/api")]

/-- The keys of `apiMapping` (the configured path prefixes), in order. -/
def apiKeys : List String :=
  apiMapping.map Prod.fst

/-- `apiMapping[p]` : object lookup of the upstream base URL for key `p`. -/
def apiBase (p : String) : String :=
  ((apiMapping.find? (fun kv => kv.1 == p)).map Prod.snd).getD ""

/-- `extractPrefixAndRest(pathname, prefixes)` from the source: scan the
prefixes in order; on a literal `startsWith` hit, accept only if the
remainder is empty or begins with a slash, otherwise keep scanning;
return `(null, null)` when nothing is accepted. -/
def extractPrefixAndRest (pathname : String) (prefixes : List String) :
    Option String × Option String :=
  match prefixes with
  | [] => (none, none)
  | p :: ps =>
    if strStartsWith pathname p then
      let rest := strDrop pathname p.data.length
      if rest.data.length == 0 || strStartsWith rest "/" then
        (some p, some rest)
      else
        extractPrefixAndRest pathname ps
    else
      extractPrefixAndRest pathname ps

/-- JS `s.toLowerCase()` : characterwise lowercase. -/
def lowerStr (s : String) : String :=
  ⟨s.data.map Char.toLower⟩

/-- A header collection: ordered (name, value) pairs. -/
abbrev HeaderList := List (String × String)

/-- Case-insensitive header membership (`Headers.has`). -/
def hasHeader (hs : HeaderList) (name : String) : Bool :=
  hs.any (fun p => lowerStr p.1 == lowerStr name)

/-- Case-insensitive header lookup (`Headers.get`). -/
def getHeader (hs : HeaderList) (name : String) : Option String :=
  (hs.find? (fun p => lowerStr p.1 == lowerStr name)).map Prod.snd

/-- `Headers.set` : case-insensitively replace a present name, else append;
the stored entry carries the name exactly as given. -/
def setHeader (hs : HeaderList) (name value : String) : HeaderList :=
  if hs.any (fun p => lowerStr p.1 == lowerStr name) then
    hs.map (fun p => if lowerStr p.1 == lowerStr name then (name, value) else p)
  else
    hs ++ [(name, value)]

/-- The fixed allow-list of forwardable header names (lowercased). -/
def allowedHeaders : List String :=
  ["accept", "content-type", "authorization", "x-goog-api-key"]

/-- The body of the header-filter loop: copy one inbound entry when its
lowercased name is allow-listed, else skip it. -/
def copyAllowed (acc : HeaderList) (kv : String × String) : HeaderList :=
  if allowedHeaders.contains (lowerStr kv.1) then setHeader acc kv.1 kv.2
  else acc

/-- The header-filter loop plus the separate User-Agent step from the
source: copy each inbound entry whose lowercased name is allow-listed,
then, if the inbound request has a `user-agent` header, set `User-Agent`
to its value (the `getD ""` models the source's non-null assertion, which
never fires under the guarding `has` check). -/
def filterHeaders (reqHeaders : HeaderList) : HeaderList :=
  let hs := reqHeaders.foldl copyAllowed []
  if hasHeader reqHeaders "user-agent" then
    setHeader hs "User-Agent" ((getHeader reqHeaders "user-agent").getD "")
  else
    hs

/-- The three defensive headers set on the copied upstream header set. -/
def addSecurityHeaders (hs : HeaderList) : HeaderList :=
  setHeader
    (setHeader
      (setHeader hs "X-Content-Type-Options" "nosniff")
      "X-Frame-Options" "DENY")
    "Referrer-Policy" "no-referrer"

/-- An inbound request: method, parsed pathname, query string, headers. -/
structure IncomingRequest where
  method : String
  pathname : String
  search : String
  headers : HeaderList
deriving DecidableEq

/-- An upstream response as seen by the proxy. -/
structure UpstreamResponse where
  status : Nat
  statusText : String
  headers : HeaderList
deriving DecidableEq

/-- Outcome of the outbound `fetch` call. -/
inductive FetchResult where
  | ok : UpstreamResponse → FetchResult
  | err : FetchResult
deriving DecidableEq

/-- A response body: a literal text body, or the upstream body streamed
through unchanged. -/
inductive ResponseBody where
  | text : String → ResponseBody
  | upstream : ResponseBody
deriving DecidableEq

/-- A response returned to the client. -/
structure Response where
  status : Nat
  statusText : String
  headers : HeaderList
  body : ResponseBody
deriving DecidableEq

/-- The top-level dispatcher from the source `serve` handler. `fetch` is
the network oracle, mapping a target URL to the outbound call's outcome;
the second component collects the target URLs actually fetched. -/
def handleRequest (req : IncomingRequest) (fetch : String → FetchResult) :
    Response × List String :=
  if req.pathname = "/" ∨ req.pathname = "/index.html" then
    ({status := 200, statusText := "",
      headers := [("Content-Type", "text/html; charset=utf-8")],
      body := ResponseBody.text "Service is running!"}, [])
  else if req.pathname = "/robots.txt" then
    ({status := 200, statusText := "",
      headers := [("Content-Type", "text/plain; charset=utf-8")],
      body := ResponseBody.text "User-agent: *\nDisallow: /"}, [])
  else
    match extractPrefixAndRest req.pathname apiKeys with
    | (none, _) =>
      ({status := 404, statusText := "", headers := [],
        body := ResponseBody.text "Not Found"}, [])
    | (some pfx, restOpt) =>
      let rest := restOpt.getD ""
      let target := apiBase pfx ++ rest ++ req.search
      match fetch target with
      | FetchResult.ok up =>
        ({status := up.status, statusText := up.statusText,
          headers := addSecurityHeaders up.headers,
          body := ResponseBody.upstream}, [target])
      | FetchResult.err =>
        ({status := 500, statusText := "", headers := [],
          body := ResponseBody.text "Internal Server Error"}, [target])

/-- A path accepts a table prefix when it starts with it literally and the
remainder is empty or begins with a slash (segment-boundary rule). -/
def accepts (pathname p : String) : Bool :=
  strStartsWith pathname p &&
    ((strDrop pathname p.data.length).data.length == 0
      || strStartsWith (strDrop pathname p.data.length) "/")

/-- No string in the list is a character-prefix of another (nor of itself,
so the strings are also pairwise distinct). -/
def noPrefixPair : List String → Bool
  | [] => true
  | k :: ks =>
    ks.all (fun k2 => !(k.data.isPrefixOf k2.data) && !(k2.data.isPrefixOf k.data))
      && noPrefixPair ks

/-- A header collection carries an entry whose lowercased name is `x`. -/
def hasName (hs : HeaderList) (x : String) : Prop :=
  ∃ p ∈ hs, lowerStr p.1 = x

/-- The request path is none of the statically served paths. -/
abbrev notSpecial (pathname : String) : Prop :=
  pathname ≠ "/" ∧ pathname ≠ "/index.html" ∧ pathname ≠ "/robots.txt"

/-! ## Router lemmas -/

lemma extract_cons (pathname p : String) (ps : List String) :
    extractPrefixAndRest pathname (p :: ps) =
      if strStartsWith pathname p then
        (if ((strDrop pathname p.data.length).data.length == 0
              || strStartsWith (strDrop pathname p.data.length) "/") then
          (some p, some (strDrop pathname p.data.length))
        else extractPrefixAndRest pathname ps)
      else extractPrefixAndRest pathname ps := rfl

lemma extract_eq_find (pathname : String) (ps : List String) :
    extractPrefixAndRest pathname ps =
      match ps.find? (accepts pathname) with
      | some p => (some p, some (strDrop pathname p.data.length))
      | none => (none, none) := by
  induction ps with
  | nil => rfl
  | cons p ps ih =>
    cases h1 : strStartsWith pathname p with
    | false =>
      have ha : accepts pathname p = false := by
        unfold accepts; rw [h1, Bool.false_and]
      rw [extract_cons, if_neg (by simp [h1]), List.find?_cons_of_neg _ (by simp [ha])]
      exact ih
    | true =>
      rw [extract_cons, if_pos h1]
      cases h2 : ((strDrop pathname p.data.length).data.length == 0
          || strStartsWith (strDrop pathname p.data.length) "/") with
      | true =>
        have ha : accepts pathname p = true := by
          unfold accepts; rw [h1, Bool.true_and]; exact h2
        rw [List.find?_cons_of_pos _ (by simp [ha])]
        simp
      | false =>
        have ha : accepts pathname p = false := by
          unfold accepts; rw [h1, Bool.true_and]; exact h2
        rw [if_neg (by simp), List.find?_cons_of_neg _ (by simp [ha])]
        exact ih

lemma strStartsWith_iff {s p : String} : strStartsWith s p = true ↔ p.data <+: s.data := by
  simp [strStartsWith, List.isPrefixOf_iff_prefix]

lemma strDrop_data (s : String) (n : Nat) : (strDrop s n).data = s.data.drop n := rfl

lemma append_of_startsWith {pathname p : String} (h : strStartsWith pathname p = true) :
    p ++ strDrop pathname p.data.length = pathname := by
  apply String.ext
  rw [String.data_append, strDrop_data]
  have hp : p.data <+: pathname.data := strStartsWith_iff.mp h
  have ht : pathname.data.take p.data.length = p.data := (List.prefix_iff_eq_take.mp hp).symm
  calc p.data ++ pathname.data.drop p.data.length
      = pathname.data.take p.data.length ++ pathname.data.drop p.data.length := by rw [ht]
    _ = pathname.data := List.take_append_drop _ _

lemma accepts_startsWith {pathname p : String} (h : accepts pathname p = true) :
    strStartsWith pathname p = true := by
  unfold accepts at h
  exact (Bool.and_eq_true _ _ |>.mp h).1

lemma extract_some {pathname : String} {ps : List String} {pfx rest : String}
    (h : extractPrefixAndRest pathname ps = (some pfx, some rest)) :
    pfx ∈ ps ∧ pfx ++ rest = pathname := by
  rw [extract_eq_find] at h
  cases hf : ps.find? (accepts pathname) with
  | none => rw [hf] at h; exact absurd h (by simp)
  | some q =>
    rw [hf] at h
    have hq1 : q ∈ ps := List.mem_of_find?_eq_some hf
    have hq2 : accepts pathname q = true := List.find?_some hf
    have hpfx : q = pfx := by
      have := congrArg Prod.fst h
      simpa using this
    have hrest : strDrop pathname q.data.length = rest := by
      have := congrArg Prod.snd h
      simpa using this
    subst hpfx
    exact ⟨hq1, hrest ▸ append_of_startsWith (accepts_startsWith hq2)⟩

lemma extract_none_of_fst_none {pathname : String} {ps : List String}
    (h : (extractPrefixAndRest pathname ps).1 = none) :
    extractPrefixAndRest pathname ps = (none, none) := by
  rw [extract_eq_find] at h ⊢
  cases hf : ps.find? (accepts pathname) with
  | none => rfl
  | some q => rw [hf] at h; exact absurd h (by simp)

lemma extract_none_of_snd_none {pathname : String} {ps : List String}
    (h : (extractPrefixAndRest pathname ps).2 = none) :
    extractPrefixAndRest pathname ps = (none, none) := by
  rw [extract_eq_find] at h ⊢
  cases hf : ps.find? (accepts pathname) with
  | none => rfl
  | some q => rw [hf] at h; exact absurd h (by simp)

lemma startsWith_append_self (p s : String) : strStartsWith (p ++ s) p = true := by
  rw [strStartsWith_iff, String.data_append]
  exact List.prefix_append _ _

lemma strDrop_append_self (p s : String) : strDrop (p ++ s) p.data.length = s := by
  apply String.ext
  rw [strDrop_data, String.data_append]
  exact List.drop_left _ _

lemma not_startsWith_of_incomparable {k p : String} (s : String)
    (h1 : ¬(k.data <+: p.data)) (h2 : ¬(p.data <+: k.data)) :
    strStartsWith (p ++ s) k = false := by
  cases hb : strStartsWith (p ++ s) k with
  | false => rfl
  | true =>
    exfalso
    have hk := strStartsWith_iff.mp hb
    rw [String.data_append] at hk
    have hp : p.data <+: p.data ++ s.data := List.prefix_append _ _
    rcases le_total k.data.length p.data.length with hle | hle
    · exact h1 (List.prefix_of_prefix_length_le hk hp hle)
    · exact h2 (List.prefix_of_prefix_length_le hp hk hle)

lemma noPrefixPair_cons {k : String} {ks : List String} (h : noPrefixPair (k :: ks) = true) :
    (∀ k2 ∈ ks, ¬(k.data <+: k2.data) ∧ ¬(k2.data <+: k.data)) ∧ noPrefixPair ks = true := by
  unfold noPrefixPair at h
  rw [Bool.and_eq_true] at h
  refine ⟨fun k2 hk2 => ?_, h.2⟩
  have hb := List.all_eq_true.mp h.1 k2 hk2
  rw [Bool.and_eq_true, Bool.not_eq_true', Bool.not_eq_true'] at hb
  constructor <;> intro hc <;> rw [← List.isPrefixOf_iff_prefix] at hc
  · exact absurd hc (by simp [hb.1])
  · exact absurd hc (by simp [hb.2])

lemma extract_append {ks : List String} (hnp : noPrefixPair ks = true)
    {pfx : String} (hmem : pfx ∈ ks) (s : String)
    (hs : s = "" ∨ strStartsWith s "/" = true) :
    extractPrefixAndRest (pfx ++ s) ks = (some pfx, some s) := by
  induction ks with
  | nil => cases hmem
  | cons k ks ih =>
    obtain ⟨hall, hrec⟩ := noPrefixPair_cons hnp
    by_cases hk : k = pfx
    · subst hk
      rw [extract_cons, if_pos (startsWith_append_self _ _), strDrop_append_self]
      have hcond : (s.data.length == 0 || strStartsWith s "/") = true := by
        rcases hs with h | h
        · subst h; rfl
        · rw [h, Bool.or_true]
      rw [if_pos hcond]
    · have hmem2 : pfx ∈ ks := by
        rcases List.mem_cons.mp hmem with h | h
        · exact absurd h.symm hk
        · exact h
      have hnc := hall pfx hmem2
      rw [extract_cons, if_neg (by simp [not_startsWith_of_incomparable s hnc.1 hnc.2])]
      exact ih hrec hmem2

/-! ## Header lemmas -/

lemma hasHeader_iff_hasName {hs : HeaderList} {n : String} :
    hasHeader hs n = true ↔ hasName hs (lowerStr n) := by
  simp [hasHeader, hasName, List.any_eq_true, beq_iff_eq]

lemma hasName_setHeader {hs : HeaderList} {m v x : String} :
    hasName (setHeader hs m v) x ↔ hasName hs x ∨ x = lowerStr m := by
  unfold setHeader
  split
  next hcond =>
    constructor
    · rintro ⟨p, hp, hx⟩
      rw [List.mem_map] at hp
      obtain ⟨q, hq, hfq⟩ := hp
      cases hb : (lowerStr q.1 == lowerStr m) with
      | true =>
        rw [if_pos hb] at hfq
        right
        rw [← hx, ← hfq]
      | false =>
        rw [if_neg (by simp [hb])] at hfq
        exact Or.inl ⟨q, hq, by rw [hfq]; exact hx⟩
    · rintro (⟨p, hp, hx⟩ | rfl)
      · cases hb : (lowerStr p.1 == lowerStr m) with
        | true =>
          refine ⟨(m, v), List.mem_map.mpr ⟨p, hp, by rw [if_pos hb]⟩, ?_⟩
          have hpm := eq_of_beq hb
          rw [← hpm]
          exact hx
        | false =>
          exact ⟨p, List.mem_map.mpr ⟨p, hp, by rw [if_neg (by simp [hb])]⟩, hx⟩
      · rw [List.any_eq_true] at hcond
        obtain ⟨q, hq, hbq⟩ := hcond
        exact ⟨(m, v), List.mem_map.mpr ⟨q, hq, by rw [if_pos hbq]⟩, rfl⟩
  next hcond =>
    constructor
    · rintro ⟨p, hp, hx⟩
      rcases List.mem_append.mp hp with h2 | h2
      · exact Or.inl ⟨p, h2, hx⟩
      · right
        have hpm : p = (m, v) := by simpa using h2
        rw [← hx, hpm]
    · rintro (⟨p, hp, hx⟩ | rfl)
      · exact ⟨p, List.mem_append_left _ hp, hx⟩
      · exact ⟨(m, v), List.mem_append_right _ (by simp), rfl⟩

lemma mem_setHeader {hs : HeaderList} {m v : String} {p : String × String}
    (h : p ∈ setHeader hs m v) : p ∈ hs ∨ p = (m, v) := by
  unfold setHeader at h
  split at h
  · rw [List.mem_map] at h
    obtain ⟨q, hq, hfq⟩ := h
    cases hb : (lowerStr q.1 == lowerStr m) with
    | true => rw [if_pos hb] at hfq; exact Or.inr hfq.symm
    | false => rw [if_neg (by simp [hb])] at hfq; exact Or.inl (hfq ▸ hq)
  · rcases List.mem_append.mp h with h2 | h2
    · exact Or.inl h2
    · exact Or.inr (by simpa using h2)

lemma mem_setHeader_of_ne {hs : HeaderList} {m v : String} {p : String × String}
    (hp : p ∈ hs) (hne : lowerStr p.1 ≠ lowerStr m) : p ∈ setHeader hs m v := by
  unfold setHeader
  split
  · exact List.mem_map.mpr ⟨p, hp, by rw [if_neg (by simp [hne])]⟩
  · exact List.mem_append_left _ hp

lemma getHeader_setHeader_self {hs : HeaderList} {m v n : String}
    (h : lowerStr m = lowerStr n) :
    getHeader (setHeader hs m v) n = some v := by
  unfold getHeader setHeader
  split
  next hcond =>
    rw [List.find?_map]
    have hfun : ((fun p : String × String => lowerStr p.1 == lowerStr n) ∘
        (fun p : String × String =>
          if lowerStr p.1 == lowerStr m then (m, v) else p))
        = (fun p : String × String => lowerStr p.1 == lowerStr m) := by
      funext q
      simp only [Function.comp_apply]
      by_cases hb : (lowerStr q.1 == lowerStr m) = true
      · rw [if_pos hb, hb]
        show (lowerStr m == lowerStr n) = true
        rw [h]
        exact beq_self_eq_true _
      · rw [if_neg hb, ← h]
    rw [hfun]
    have hsome : (hs.find? (fun p => lowerStr p.1 == lowerStr m)).isSome := by
      rw [List.find?_isSome]
      rw [List.any_eq_true] at hcond
      exact hcond
    obtain ⟨q0, hq0⟩ := Option.isSome_iff_exists.mp hsome
    have hbq0 := List.find?_some hq0
    rw [hq0]
    have hqm := eq_of_beq hbq0
    simp [hqm]
  next hcond =>
    rw [Bool.not_eq_true] at hcond
    rw [List.find?_append]
    have hnone : hs.find? (fun p => lowerStr p.1 == lowerStr n) = none := by
      rw [List.find?_eq_none]
      intro q hq hbq
      have := List.any_eq_false.mp hcond q hq
      rw [← h] at hbq
      exact this hbq
    rw [hnone]
    rw [List.find?_cons_of_pos _ (by simp [h])]
    simp

lemma getHeader_setHeader_other {hs : HeaderList} {m v n : String}
    (h : lowerStr m ≠ lowerStr n) :
    getHeader (setHeader hs m v) n = getHeader hs n := by
  unfold getHeader setHeader
  split
  next hcond =>
    rw [List.find?_map]
    have hfun : ((fun p : String × String => lowerStr p.1 == lowerStr n) ∘
        (fun p : String × String =>
          if lowerStr p.1 == lowerStr m then (m, v) else p))
        = (fun p : String × String => lowerStr p.1 == lowerStr n) := by
      funext q
      cases hb : (lowerStr q.1 == lowerStr m) with
      | true =>
        have hqm := eq_of_beq hb
        simp [Function.comp, hb, hqm, h, Ne.symm h]
      | false => simp [Function.comp, hb]
    rw [hfun]
    cases hf : hs.find? (fun p => lowerStr p.1 == lowerStr n) with
    | none => simp
    | some q0 =>
      have hbq0 := List.find?_some hf
      have hne : lowerStr q0.1 ≠ lowerStr m := by
        rw [eq_of_beq hbq0]
        exact fun hc => h hc.symm
      simp [hne]
  next hcond =>
    rw [List.find?_append]
    have hone : List.find? (fun p => lowerStr p.1 == lowerStr n) [(m, v)] = none := by
      rw [List.find?_cons_of_neg _ (by simp [beq_iff_eq]; exact h)]
      rfl
    rw [hone]
    simp

lemma getHeader_some_of_hasHeader {hs : HeaderList} {n : String}
    (h : hasHeader hs n = true) :
    getHeader hs n = some ((getHeader hs n).getD "") := by
  unfold hasHeader at h
  unfold getHeader
  have hsome : (hs.find? (fun p => lowerStr p.1 == lowerStr n)).isSome := by
    rw [List.find?_isSome]
    rw [List.any_eq_true] at h
    exact h
  obtain ⟨q, hq⟩ := Option.isSome_iff_exists.mp hsome
  rw [hq]
  rfl

lemma mem_copyAllowed_foldl {req acc : HeaderList} {p : String × String}
    (h : p ∈ req.foldl copyAllowed acc) : p ∈ acc ∨ p ∈ req := by
  induction req generalizing acc with
  | nil => exact Or.inl h
  | cons kv req ih =>
    rw [List.foldl_cons] at h
    rcases ih h with h2 | h2
    · unfold copyAllowed at h2
      split at h2
      · rcases mem_setHeader h2 with h3 | h3
        · exact Or.inl h3
        · right
          rw [h3]
          exact List.mem_cons_self _ _
      · exact Or.inl h2
    · exact Or.inr (List.mem_cons_of_mem _ h2)

lemma hasName_copyAllowed_foldl (req : HeaderList) (acc : HeaderList) (x : String) :
    hasName (req.foldl copyAllowed acc) x ↔
      hasName acc x ∨ ∃ p ∈ req, lowerStr p.1 = x ∧ x ∈ allowedHeaders := by
  induction req generalizing acc with
  | nil => simp [hasName]
  | cons kv req ih =>
    rw [List.foldl_cons, ih]
    unfold copyAllowed
    by_cases hc : (allowedHeaders.contains (lowerStr kv.1)) = true
    · rw [if_pos hc]
      have hc2 : lowerStr kv.1 ∈ allowedHeaders := List.elem_iff.mp hc
      rw [hasName_setHeader]
      constructor
      · rintro ((h | rfl) | ⟨p, hp, hx, ha⟩)
        · exact Or.inl h
        · exact Or.inr ⟨kv, List.mem_cons_self _ _, rfl, hc2⟩
        · exact Or.inr ⟨p, List.mem_cons_of_mem _ hp, hx, ha⟩
      · rintro (h | ⟨p, hp, hx, ha⟩)
        · exact Or.inl (Or.inl h)
        · rcases List.mem_cons.mp hp with rfl | hp2
          · exact Or.inl (Or.inr hx.symm)
          · exact Or.inr ⟨p, hp2, hx, ha⟩
    · rw [if_neg hc]
      constructor
      · rintro (h | ⟨p, hp, hx, ha⟩)
        · exact Or.inl h
        · exact Or.inr ⟨p, List.mem_cons_of_mem _ hp, hx, ha⟩
      · rintro (h | ⟨p, hp, hx, ha⟩)
        · exact Or.inl h
        · rcases List.mem_cons.mp hp with rfl | hp2
          · have hmem : lowerStr p.1 ∈ allowedHeaders := by rw [hx]; exact ha
            exact absurd (List.elem_iff.mpr hmem) hc
          · exact Or.inr ⟨p, hp2, hx, ha⟩

/-! ## Dispatcher branch lemmas -/

lemma handle_static {req : IncomingRequest} {fetch : String → FetchResult}
    (h : req.pathname = "/" ∨ req.pathname = "/index.html") :
    handleRequest req fetch =
      ({status := 200, statusText := "",
        headers := [("Content-Type", "text/html; charset=utf-8")],
        body := ResponseBody.text "Service is running!"}, []) := by
  unfold handleRequest
  rw [if_pos h]

lemma handle_robots {req : IncomingRequest} {fetch : String → FetchResult}
    (h : req.pathname = "/robots.txt") :
    handleRequest req fetch =
      ({status := 200, statusText := "",
        headers := [("Content-Type", "text/plain; charset=utf-8")],
        body := ResponseBody.text "User-agent: *\nDisallow: /"}, []) := by
  unfold handleRequest
  rw [if_neg (by rw [h]; decide), if_pos h]

lemma handle_nomatch {req : IncomingRequest} {fetch : String → FetchResult}
    (h1 : notSpecial req.pathname)
    (h2 : extractPrefixAndRest req.pathname apiKeys = (none, none)) :
    handleRequest req fetch =
      ({status := 404, statusText := "", headers := [],
        body := ResponseBody.text "Not Found"}, []) := by
  unfold handleRequest
  rw [if_neg (not_or.mpr ⟨h1.1, h1.2.1⟩), if_neg h1.2.2]
  simp only [h2]

lemma handle_relay {req : IncomingRequest} {fetch : String → FetchResult}
    {pfx rest : String} {up : UpstreamResponse}
    (h1 : notSpecial req.pathname)
    (h2 : extractPrefixAndRest req.pathname apiKeys = (some pfx, some rest))
    (h3 : fetch (apiBase pfx ++ rest ++ req.search) = FetchResult.ok up) :
    handleRequest req fetch =
      ({status := up.status, statusText := up.statusText,
        headers := addSecurityHeaders up.headers,
        body := ResponseBody.upstream},
       [apiBase pfx ++ rest ++ req.search]) := by
  unfold handleRequest
  rw [if_neg (not_or.mpr ⟨h1.1, h1.2.1⟩), if_neg h1.2.2]
  simp only [h2, Option.getD_some, h3]

lemma handle_fetchfail {req : IncomingRequest} {fetch : String → FetchResult}
    {pfx rest : String}
    (h1 : notSpecial req.pathname)
    (h2 : extractPrefixAndRest req.pathname apiKeys = (some pfx, some rest))
    (h3 : fetch (apiBase pfx ++ rest ++ req.search) = FetchResult.err) :
    handleRequest req fetch =
      ({status := 500, statusText := "", headers := [],
        body := ResponseBody.text "Internal Server Error"},
       [apiBase pfx ++ rest ++ req.search]) := by
  unfold handleRequest
  rw [if_neg (not_or.mpr ⟨h1.1, h1.2.1⟩), if_neg h1.2.2]
  simp only [h2, Option.getD_some, h3]

/-! ## Claim theorems -/

/-- C1: the router returns the first prefix in declaration order whose
literal match leaves a remainder that is empty or starts with a slash
(the `find?` characterisation); a path such as `/gemini-pro` starts with
`/gemini` yet is rejected for it, and with nothing else matching the
router signals no-match. -/
theorem c1_router_first_match :
    (∀ (pathname : String) (ps : List String),
        extractPrefixAndRest pathname ps =
          match ps.find? (accepts pathname) with
          | some p => (some p, some (strDrop pathname p.data.length))
          | none => (none, none)) ∧
    strStartsWith "/gemini-pro" "/gemini" = true ∧
    extractPrefixAndRest "/gemini-pro" apiKeys = (none, none) :=
  ⟨extract_eq_find, by decide, by decide⟩

/-- C2: the outbound header set contains exactly the inbound names whose
lowercased form is allow-listed, plus `user-agent` when the inbound
request has one; every other inbound header is absent. -/
theorem c2_header_allowlist (reqHeaders : HeaderList) (n : String) :
    hasHeader (filterHeaders reqHeaders) n = true ↔
      hasHeader reqHeaders n = true ∧
        (lowerStr n ∈ allowedHeaders ∨ lowerStr n = "user-agent") := by
  have hemp : ¬ hasName ([] : HeaderList) (lowerStr n) := by simp [hasName]
  unfold filterHeaders
  by_cases hua : hasHeader reqHeaders "user-agent" = true
  · rw [if_pos hua]
    rw [hasHeader_iff_hasName, hasName_setHeader, hasName_copyAllowed_foldl,
      (by decide : lowerStr "User-Agent" = "user-agent"), hasHeader_iff_hasName]
    have huaN : hasName reqHeaders "user-agent" := by
      have h2 := hasHeader_iff_hasName.mp hua
      rwa [(by decide : lowerStr "user-agent" = "user-agent")] at h2
    constructor
    · rintro ((he | ⟨p, hp, hpx, ha⟩) | hn)
      · exact absurd he hemp
      · exact ⟨⟨p, hp, hpx⟩, Or.inl ha⟩
      · refine ⟨?_, Or.inr hn⟩
        rw [hn]
        exact huaN
    · rintro ⟨⟨p, hp, hpx⟩, (ha | hn)⟩
      · exact Or.inl (Or.inr ⟨p, hp, hpx, ha⟩)
      · exact Or.inr hn
  · rw [if_neg hua]
    rw [hasHeader_iff_hasName, hasName_copyAllowed_foldl, hasHeader_iff_hasName]
    constructor
    · rintro (he | ⟨p, hp, hpx, ha⟩)
      · exact absurd he hemp
      · exact ⟨⟨p, hp, hpx⟩, Or.inl ha⟩
    · rintro ⟨⟨p, hp, hpx⟩, (ha | hn)⟩
      · exact Or.inr ⟨p, hp, hpx, ha⟩
      · exfalso
        apply hua
        rw [hasHeader_iff_hasName, (by decide : lowerStr "user-agent" = "user-agent"), ← hn]
        exact ⟨p, hp, hpx⟩

/-- C3: for every matched request the fetched target URL is the matched
prefix's upstream base concatenated with the remainder and the original
query string; a path equal to a configured prefix leaves an empty
remainder, and a path `prefix ++ "/x"` leaves remainder `"/x"`. -/
theorem c3_resolved_target :
    (∀ (req : IncomingRequest) (fetch : String → FetchResult) (pfx rest : String),
        notSpecial req.pathname →
        extractPrefixAndRest req.pathname apiKeys = (some pfx, some rest) →
        (handleRequest req fetch).2 = [apiBase pfx ++ rest ++ req.search]) ∧
    (∀ p ∈ apiKeys, extractPrefixAndRest p apiKeys = (some p, some "")) ∧
    (∀ p, p ∈ apiKeys → ∀ s, strStartsWith s "/" = true →
        extractPrefixAndRest (p ++ s) apiKeys = (some p, some s)) := by
  refine ⟨fun req fetch pfx rest h1 h2 => ?_, fun p hp => ?_, fun p hp s hs => ?_⟩
  · cases h3 : fetch (apiBase pfx ++ rest ++ req.search) with
    | ok up => rw [handle_relay h1 h2 h3]
    | err => rw [handle_fetchfail h1 h2 h3]
  · have h2 := extract_append (by decide) hp "" (Or.inl rfl)
    rwa [String.append_empty] at h2
  · exact extract_append (by decide) hp s (Or.inr hs)

/-- Concrete instantiation of C3 at a matched request. -/
theorem c3_witness :
    notSpecial "/openai/v1/models" ∧
    extractPrefixAndRest "/openai/v1/models" apiKeys = (some "/openai", some "/v1/models") ∧
    (handleRequest ⟨"GET", "/openai/v1/models", "?key=abc", []⟩
        (fun _ => FetchResult.err)).2 = ["https://api.openai.com/v1/models?key=abc"] := by
  refine ⟨by decide, by decide, ?_⟩
  have h := c3_resolved_target.1 ⟨"GET", "/openai/v1/models", "?key=abc", []⟩
    (fun _ => FetchResult.err) "/openai" "/v1/models" (by decide) (by decide)
  rw [h]
  decide

/-- C4: a non-special path matching no configured prefix yields status
404 with plain-text body "Not Found" and no outbound call. -/
theorem c4_unmatched_404 :
    ∀ (req : IncomingRequest) (fetch : String → FetchResult),
      notSpecial req.pathname →
      (extractPrefixAndRest req.pathname apiKeys).1 = none →
      handleRequest req fetch =
        ({status := 404, statusText := "", headers := [],
          body := ResponseBody.text "Not Found"}, []) :=
  fun _ _ h1 h2 => handle_nomatch h1 (extract_none_of_fst_none h2)

/-- Concrete instantiation of C4 at an unmatched path. -/
theorem c4_witness :
    notSpecial "/nope" ∧
    (extractPrefixAndRest "/nope" apiKeys).1 = none ∧
    handleRequest ⟨"GET", "/nope", "", []⟩ (fun _ => FetchResult.err) =
      ({status := 404, statusText := "", headers := [],
        body := ResponseBody.text "Not Found"}, []) :=
  ⟨by decide, by decide,
    c4_unmatched_404 ⟨"GET", "/nope", "", []⟩ (fun _ => FetchResult.err)
      (by decide) (by decide)⟩

/-- C5: when the outbound call fails, the response is exactly status 500
with body "Internal Server Error", and exactly one outbound attempt was
made (no retry). -/
theorem c5_fetch_failure_500 :
    ∀ (req : IncomingRequest) (fetch : String → FetchResult) (pfx rest : String),
      notSpecial req.pathname →
      extractPrefixAndRest req.pathname apiKeys = (some pfx, some rest) →
      fetch (apiBase pfx ++ rest ++ req.search) = FetchResult.err →
      handleRequest req fetch =
        ({status := 500, statusText := "", headers := [],
          body := ResponseBody.text "Internal Server Error"},
         [apiBase pfx ++ rest ++ req.search]) :=
  fun _ _ _ _ h1 h2 h3 => handle_fetchfail h1 h2 h3

/-- Concrete instantiation of C5 with a failing fetch oracle. -/
theorem c5_witness :
    notSpecial "/gemini/v1beta/models" ∧
    extractPrefixAndRest "/gemini/v1beta/models" apiKeys =
      (some "/gemini", some "/v1beta/models") ∧
    handleRequest ⟨"POST", "/gemini/v1beta/models", "", []⟩ (fun _ => FetchResult.err) =
      ({status := 500, statusText := "", headers := [],
        body := ResponseBody.text "Internal Server Error"},
       ["https://generativelanguage.googleapis.com/v1beta/models"]) := by
  refine ⟨by decide, by decide, ?_⟩
  have h := c5_fetch_failure_500 ⟨"POST", "/gemini/v1beta/models", "", []⟩
    (fun _ => FetchResult.err) "/gemini" "/v1beta/models" (by decide) (by decide) rfl
  rw [h]
  decide

/-- C6: a successful upstream response is relayed with the upstream's
status, status text and streamed body; the three security headers are
added or overridden, and every other upstream header entry is preserved
as received. -/
theorem c6_relay_upstream :
    ∀ (req : IncomingRequest) (fetch : String → FetchResult)
      (pfx rest : String) (up : UpstreamResponse),
      notSpecial req.pathname →
      extractPrefixAndRest req.pathname apiKeys = (some pfx, some rest) →
      fetch (apiBase pfx ++ rest ++ req.search) = FetchResult.ok up →
      (handleRequest req fetch).1.status = up.status ∧
      (handleRequest req fetch).1.statusText = up.statusText ∧
      (handleRequest req fetch).1.body = ResponseBody.upstream ∧
      getHeader (handleRequest req fetch).1.headers "X-Content-Type-Options" = some "nosniff" ∧
      getHeader (handleRequest req fetch).1.headers "X-Frame-Options" = some "DENY" ∧
      getHeader (handleRequest req fetch).1.headers "Referrer-Policy" = some "no-referrer" ∧
      (∀ q ∈ up.headers,
        lowerStr q.1 ≠ "x-content-type-options" →
        lowerStr q.1 ≠ "x-frame-options" →
        lowerStr q.1 ≠ "referrer-policy" →
        q ∈ (handleRequest req fetch).1.headers) := by
  intro req fetch pfx rest up h1 h2 h3
  rw [handle_relay h1 h2 h3]
  refine ⟨rfl, rfl, rfl, ?_, ?_, ?_, ?_⟩
  · unfold addSecurityHeaders
    rw [getHeader_setHeader_other (by decide), getHeader_setHeader_other (by decide),
      getHeader_setHeader_self (by decide)]
  · unfold addSecurityHeaders
    rw [getHeader_setHeader_other (by decide), getHeader_setHeader_self (by decide)]
  · unfold addSecurityHeaders
    rw [getHeader_setHeader_self (by decide)]
  · intro q hq hn1 hn2 hn3
    unfold addSecurityHeaders
    refine mem_setHeader_of_ne (mem_setHeader_of_ne (mem_setHeader_of_ne hq ?_) ?_) ?_
    · rw [(by decide : lowerStr "X-Content-Type-Options" = "x-content-type-options")]
      exact hn1
    · rw [(by decide : lowerStr "X-Frame-Options" = "x-frame-options")]
      exact hn2
    · rw [(by decide : lowerStr "Referrer-Policy" = "referrer-policy")]
      exact hn3

/-- Concrete instantiation of C6 with a 201 upstream response. -/
theorem c6_witness :
    (handleRequest ⟨"POST", "/claude/v1/messages", "", []⟩
        (fun _ => FetchResult.ok ⟨201, "Created", [("Content-Type", "application/json")]⟩)).1.status = 201 ∧
    (handleRequest ⟨"POST", "/claude/v1/messages", "", []⟩
        (fun _ => FetchResult.ok ⟨201, "Created", [("Content-Type", "application/json")]⟩)).1.statusText = "Created" ∧
    getHeader (handleRequest ⟨"POST", "/claude/v1/messages", "", []⟩
        (fun _ => FetchResult.ok ⟨201, "Created", [("Content-Type", "application/json")]⟩)).1.headers
      "X-Content-Type-Options" = some "nosniff" ∧
    ("Content-Type", "application/json") ∈
      (handleRequest ⟨"POST", "/claude/v1/messages", "", []⟩
        (fun _ => FetchResult.ok ⟨201, "Created", [("Content-Type", "application/json")]⟩)).1.headers := by
  have h := c6_relay_upstream ⟨"POST", "/claude/v1/messages", "", []⟩
    (fun _ => FetchResult.ok ⟨201, "Created", [("Content-Type", "application/json")]⟩)
    "/claude" "/v1/messages" ⟨201, "Created", [("Content-Type", "application/json")]⟩
    (by decide) (by decide) rfl
  exact ⟨h.1, h.2.1, h.2.2.2.1,
    h.2.2.2.2.2.2 ("Content-Type", "application/json") (by decide)
      (by decide) (by decide) (by decide)⟩

/-- C7 counterexample: the static-page and 404 responses do not carry the
security headers, so not every response carries them. -/
theorem c7_counterexample :
    hasHeader (handleRequest ⟨"GET", "/", "", []⟩ (fun _ => FetchResult.err)).1.headers
      "X-Frame-Options" = false ∧
    hasHeader (handleRequest ⟨"GET", "/nope", "", []⟩ (fun _ => FetchResult.err)).1.headers
      "X-Content-Type-Options" = false := by
  refine ⟨by decide, by decide⟩

/-- C7 amended: only the relayed upstream-success response carries
`X-Content-Type-Options`, `X-Frame-Options` and `Referrer-Policy`; the
static page, robots.txt, 404 and 500 responses carry only their literal
header lists, which lack the three. -/
theorem c7_amended_security_headers :
    (∀ (req : IncomingRequest) (fetch : String → FetchResult)
        (pfx rest : String) (up : UpstreamResponse),
        notSpecial req.pathname →
        extractPrefixAndRest req.pathname apiKeys = (some pfx, some rest) →
        fetch (apiBase pfx ++ rest ++ req.search) = FetchResult.ok up →
        getHeader (handleRequest req fetch).1.headers "X-Content-Type-Options" = some "nosniff" ∧
        getHeader (handleRequest req fetch).1.headers "X-Frame-Options" = some "DENY" ∧
        getHeader (handleRequest req fetch).1.headers "Referrer-Policy" = some "no-referrer") ∧
    (∀ (req : IncomingRequest) (fetch : String → FetchResult),
        req.pathname = "/" ∨ req.pathname = "/index.html" →
        (handleRequest req fetch).1.headers = [("Content-Type", "text/html; charset=utf-8")]) ∧
    (∀ (req : IncomingRequest) (fetch : String → FetchResult),
        req.pathname = "/robots.txt" →
        (handleRequest req fetch).1.headers = [("Content-Type", "text/plain; charset=utf-8")]) ∧
    (∀ (req : IncomingRequest) (fetch : String → FetchResult),
        notSpecial req.pathname →
        (extractPrefixAndRest req.pathname apiKeys).1 = none →
        (handleRequest req fetch).1.headers = []) ∧
    (∀ (req : IncomingRequest) (fetch : String → FetchResult) (pfx rest : String),
        notSpecial req.pathname →
        extractPrefixAndRest req.pathname apiKeys = (some pfx, some rest) →
        fetch (apiBase pfx ++ rest ++ req.search) = FetchResult.err →
        (handleRequest req fetch).1.headers = []) := by
  refine ⟨fun req fetch pfx rest up h1 h2 h3 => ?_,
    fun req fetch h => by rw [handle_static h],
    fun req fetch h => by rw [handle_robots h],
    fun req fetch h1 h2 => by rw [handle_nomatch h1 (extract_none_of_fst_none h2)],
    fun req fetch pfx rest h1 h2 h3 => by rw [handle_fetchfail h1 h2 h3]⟩
  rw [handle_relay h1 h2 h3]
  refine ⟨?_, ?_, ?_⟩
  · unfold addSecurityHeaders
    rw [getHeader_setHeader_other (by decide), getHeader_setHeader_other (by decide),
      getHeader_setHeader_self (by decide)]
  · unfold addSecurityHeaders
    rw [getHeader_setHeader_other (by decide), getHeader_setHeader_self (by decide)]
  · unfold addSecurityHeaders
    rw [getHeader_setHeader_self (by decide)]

/-- Concrete instantiation of the amended C7 statement. -/
theorem c7_amended_witness :
    getHeader (handleRequest ⟨"GET", "/openai/v1/models", "", []⟩
        (fun _ => FetchResult.ok ⟨200, "OK", []⟩)).1.headers
      "X-Frame-Options" = some "DENY" ∧
    (handleRequest ⟨"GET", "/index.html", "", []⟩ (fun _ => FetchResult.err)).1.headers =
      [("Content-Type", "text/html; charset=utf-8")] :=
  ⟨(c7_amended_security_headers.1 ⟨"GET", "/openai/v1/models", "", []⟩
      (fun _ => FetchResult.ok ⟨200, "OK", []⟩) "/openai" "/v1/models" ⟨200, "OK", []⟩
      (by decide) (by decide) rfl).2.1,
    c7_amended_security_headers.2.1 ⟨"GET", "/index.html", "", []⟩
      (fun _ => FetchResult.err) (Or.inr rfl)⟩

/-- C8: every entry of the outbound header set is either an inbound
entry taken verbatim (original name casing and value) or the separate
`User-Agent` entry carrying the inbound user-agent value. -/
theorem c8_forwarded_verbatim :
    ∀ (reqHeaders : HeaderList), ∀ p ∈ filterHeaders reqHeaders,
      p ∈ reqHeaders ∨
        (p.1 = "User-Agent" ∧ getHeader reqHeaders "user-agent" = some p.2) := by
  intro req p hp
  unfold filterHeaders at hp
  by_cases hua : hasHeader req "user-agent" = true
  · rw [if_pos hua] at hp
    rcases mem_setHeader hp with h2 | h2
    · rcases mem_copyAllowed_foldl h2 with h3 | h3
      · exact absurd h3 (List.not_mem_nil p)
      · exact Or.inl h3
    · right
      refine ⟨by rw [h2], ?_⟩
      rw [h2]
      exact getHeader_some_of_hasHeader hua
  · rw [if_neg hua] at hp
    rcases mem_copyAllowed_foldl hp with h3 | h3
    · exact absurd h3 (List.not_mem_nil p)
    · exact Or.inl h3

/-- Concrete instantiation of C8 on the spec example headers. -/
theorem c8_witness :
    ("Authorization", "Bearer X") ∈
      filterHeaders [("Cookie", "a=b"), ("Authorization", "Bearer X"), ("Host", "foo")] ∧
    (("Authorization", "Bearer X") ∈
        [("Cookie", "a=b"), ("Authorization", "Bearer X"), ("Host", "foo")] ∨
      (("Authorization", "Bearer X").1 = "User-Agent" ∧
        getHeader [("Cookie", "a=b"), ("Authorization", "Bearer X"), ("Host", "foo")]
          "user-agent" = some ("Authorization", "Bearer X").2)) :=
  ⟨by decide,
    c8_forwarded_verbatim [("Cookie", "a=b"), ("Authorization", "Bearer X"), ("Host", "foo")]
      ("Authorization", "Bearer X") (by decide)⟩

/-- C9: requests for `/` or `/index.html` return 200 with body
"Service is running!" and the HTML content type, and `/robots.txt`
returns 200 with the robots body and the plain-text content type, all
before routing and without any outbound call. -/
theorem c9_static_paths :
    (∀ (req : IncomingRequest) (fetch : String → FetchResult),
        req.pathname = "/" ∨ req.pathname = "/index.html" →
        handleRequest req fetch =
          ({status := 200, statusText := "",
            headers := [("Content-Type", "text/html; charset=utf-8")],
            body := ResponseBody.text "Service is running!"}, [])) ∧
    (∀ (req : IncomingRequest) (fetch : String → FetchResult),
        req.pathname = "/robots.txt" →
        handleRequest req fetch =
          ({status := 200, statusText := "",
            headers := [("Content-Type", "text/plain; charset=utf-8")],
            body := ResponseBody.text "User-agent: *\nDisallow: /"}, [])) :=
  ⟨fun _ _ h => handle_static h, fun _ _ h => handle_robots h⟩

/-- Concrete instantiation of C9 on the static paths. -/
theorem c9_witness :
    ((⟨"GET", "/", "", []⟩ : IncomingRequest).pathname = "/" ∨
      (⟨"GET", "/", "", []⟩ : IncomingRequest).pathname = "/index.html") ∧
    handleRequest ⟨"GET", "/", "", []⟩ (fun _ => FetchResult.err) =
      ({status := 200, statusText := "",
        headers := [("Content-Type", "text/html; charset=utf-8")],
        body := ResponseBody.text "Service is running!"}, []) ∧
    handleRequest ⟨"GET", "/robots.txt", "", []⟩ (fun _ => FetchResult.err) =
      ({status := 200, statusText := "",
        headers := [("Content-Type", "text/plain; charset=utf-8")],
        body := ResponseBody.text "User-agent: *\nDisallow: /"}, []) :=
  ⟨Or.inl rfl,
    c9_static_paths.1 ⟨"GET", "/", "", []⟩ (fun _ => FetchResult.err) (Or.inl rfl),
    c9_static_paths.2 ⟨"GET", "/robots.txt", "", []⟩ (fun _ => FetchResult.err) rfl⟩

/-- C10: whenever the router matches, the matched prefix concatenated
with the remainder reconstructs the original path and the prefix is one
of the scanned keys; when either component is null, both are. -/
theorem c10_router_invariants :
    (∀ (pathname : String) (ps : List String) (pfx rest : String),
        extractPrefixAndRest pathname ps = (some pfx, some rest) →
        pfx ++ rest = pathname ∧ pfx ∈ ps) ∧
    (∀ (pathname : String) (ps : List String),
        (extractPrefixAndRest pathname ps).1 = none →
        extractPrefixAndRest pathname ps = (none, none)) ∧
    (∀ (pathname : String) (ps : List String),
        (extractPrefixAndRest pathname ps).2 = none →
        extractPrefixAndRest pathname ps = (none, none)) := by
  refine ⟨fun pathname ps pfx rest h => ?_,
    fun pathname ps h => extract_none_of_fst_none h,
    fun pathname ps h => extract_none_of_snd_none h⟩
  have h2 := extract_some h
  exact ⟨h2.2, h2.1⟩

/-- Concrete instantiation of C10 at a matched path. -/
theorem c10_witness :
    "/openai" ++ "/v1/models" = "/openai/v1/models" ∧ "/openai" ∈ apiKeys :=
  c10_router_invariants.1 "/openai/v1/models" apiKeys "/openai" "/v1/models" (by decide)

end Mozi
